import Mathlib

/-!
A verification development for `scripts/make_pdf.py`, a small Markdown-to-PDF
utility.  The Markdown-to-HTML renderer (`markdown_to_html`) is embedded as a
pure function over `List Char`; the conversion orchestrator (`convert_to_pdf`)
and command-line entry point (`main`) are embedded as functions over an
abstract system oracle recording the observable effects (reads, temp-file
lifecycle, external converter invocation, stream output) as an event trace.
-/

namespace MakePdf

/-- The apostrophe character, written via its code point. -/
def apos : Char := Char.ofNat 39

/-- ASCII whitespace as recognised by Python's `str.strip` / regex `\s`
(space, tab, newline, carriage return, vertical tab, form feed).  The embedding
restricts Python's Unicode whitespace classes to their ASCII core. -/
def isPyWs (c : Char) : Bool :=
  c == ' ' || c == '\t' || c == '\n' || c == '\r' ||
  c == Char.ofNat 11 || c == Char.ofNat 12

/-- Python `str.rstrip()` on a line. -/
def pyRstrip (s : List Char) : List Char :=
  (s.reverse.dropWhile isPyWs).reverse

/-- Python `str.strip()` on a line. -/
def pyStrip (s : List Char) : List Char :=
  pyRstrip (s.dropWhile isPyWs)

/-- `str.splitlines()`, modelling the common line boundaries
`\r\n`, `\r` and `\n`: no trailing empty line for a trailing newline, and
the empty text has zero lines. -/
def splitlinesAux (acc : List Char) : List Char → List (List Char)
  | [] => if acc.isEmpty then [] else [acc.reverse]
  | '\r' :: '\n' :: r => acc.reverse :: splitlinesAux [] r
  | '\r' :: r => acc.reverse :: splitlinesAux [] r
  | '\n' :: r => acc.reverse :: splitlinesAux [] r
  | c :: r => splitlinesAux (c :: acc) r

/-- All lines of the input text, as in `markdown.splitlines()`. -/
def splitlines (s : List Char) : List (List Char) :=
  splitlinesAux [] s

/-- `html.escape` on a single character (quote=True): the five special
characters become entity references, every other character is unchanged.
The sequential `str.replace` passes of `html.escape` are equivalent to this
character-wise map because `&` is replaced first and no replacement output
contains a later pass's target. -/
def escChar (c : Char) : List Char :=
  if c == '&' then "&amp;".toList
  else if c == '<' then "&lt;".toList
  else if c == '>' then "&gt;".toList
  else if c == '"' then "&quot;".toList
  else if c == apos then "&#x27;".toList
  else [c]

/-- `html.escape(s, quote=True)`. -/
def htmlEscape (s : List Char) : List Char :=
  (s.map escChar).flatten

/-- `line.strip()` of `raw_line.rstrip()`: the classification key of a line. -/
def strippedOf (raw : List Char) : List Char :=
  pyStrip (pyRstrip raw)

/-- The `"<ul>"` fragment. -/
def ulOpen : List Char := ['<', 'u', 'l', '>']

/-- The `"</ul>"` fragment. -/
def ulClose : List Char := ['<', '/', 'u', 'l', '>']

/-- The `"<ol>"` fragment. -/
def olOpen : List Char := ['<', 'o', 'l', '>']

/-- The `"</ol>"` fragment. -/
def olClose : List Char := ['<', '/', 'o', 'l', '>']

/-- The empty-paragraph placeholder emitted for blank lines. -/
def blankP : List Char := "<p>&nbsp;</p>".toList

/-- A paragraph fragment wrapping already-escaped text. -/
def pFrag (e : List Char) : List Char :=
  "<p>".toList ++ e ++ "</p>".toList

/-- A list-item fragment wrapping already-escaped text. -/
def liFrag (e : List Char) : List Char :=
  "<li>".toList ++ e ++ "</li>".toList

/-- `HEADING_STYLES[level]` for the clamped levels 1..3 (the source is a
dict keyed 1..3; the renderer only looks it up at clamped levels). -/
def headingStyle (l : Nat) : List Char :=
  if l == 1 then "font-size: 22px; margin-top: 28px; margin-bottom: 12px;".toList
  else if l == 2 then "font-size: 18px; margin-top: 24px; margin-bottom: 10px;".toList
  else "font-size: 16px; margin-top: 20px; margin-bottom: 8px;".toList

/-- The heading fragment
`<h{level} style="{HEADING_STYLES[level]}" >{text}</h{level}>`
for already-escaped text `e`. -/
def headingFrag (l : Nat) (e : List Char) : List Char :=
  "<h".toList ++ (toString l).toList ++ " style=\"".toList ++ headingStyle l ++
    "\" >".toList ++ e ++ "</h".toList ++ (toString l).toList ++ ">".toList

/-- The render state: `in_ul` and `in_ol`, the two open-list flags. -/
structure RState where
  in_ul : Bool
  in_ol : Bool
deriving DecidableEq, Repr

/-- `close_lists()`: the closing fragments it appends (`</ul>` first, then
`</ol>`); the flags are both cleared, which call sites model by passing
`⟨false, false⟩` on. -/
def close_lists (st : RState) : List (List Char) :=
  (if st.in_ul then [ulClose] else []) ++ (if st.in_ol then [olClose] else [])

/-- The number of leading `#` characters:
`len(stripped) - len(stripped.lstrip('#'))`. -/
def hashRun (s : List Char) : Nat :=
  (s.takeWhile (fun c => c == '#')).length

/-- The clamped heading level `max(1, min(level, 3))`. -/
def headingLevel (s : List Char) : Nat :=
  max 1 (min (hashRun s) 3)

/-- The heading text `stripped[level:].strip()` (sliced at the clamped
level). -/
def headingText (s : List Char) : List Char :=
  pyStrip (s.drop (headingLevel s))

/-- `numbered_pattern.match(stripped)` for `^(\d+)\.\s+(.*)`, returning
group 2: one or more digits, a literal period, one or more whitespace
characters, then the rest of the line. -/
def numberedMatch (s : List Char) : Option (List Char) :=
  if (s.takeWhile Char.isDigit).isEmpty then none
  else if (s.dropWhile Char.isDigit).headD ' ' = '.' then
    (if (((s.dropWhile Char.isDigit).tail).takeWhile isPyWs).isEmpty then none
     else some (((s.dropWhile Char.isDigit).tail).dropWhile isPyWs))
  else none

/-- `stripped.startswith("#")`. -/
def startsHash (s : List Char) : Bool := s.headD ' ' == '#'

/-- One iteration of the rendering loop: the fragments appended for `raw`
and the updated render state. -/
def processLine (raw : List Char) (st : RState) : List (List Char) × RState :=
  if (strippedOf raw).isEmpty then
    (close_lists st ++ [blankP], ⟨false, false⟩)
  else if startsHash (strippedOf raw) then
    (close_lists st ++
      [headingFrag (headingLevel (strippedOf raw))
        (htmlEscape (headingText (strippedOf raw)))],
      ⟨false, false⟩)
  else
    match numberedMatch (strippedOf raw) with
    | some rest =>
        if st.in_ol then ([liFrag (htmlEscape rest)], st)
        else (close_lists st ++ [olOpen, liFrag (htmlEscape rest)], ⟨false, true⟩)
    | none =>
        if (strippedOf raw).take 2 = ['-', ' '] then
          (if st.in_ul then
            ([liFrag (htmlEscape (pyStrip ((strippedOf raw).drop 2)))], st)
          else
            (close_lists st ++
              [ulOpen, liFrag (htmlEscape (pyStrip ((strippedOf raw).drop 2)))],
              ⟨true, false⟩))
        else
          (close_lists st ++ [pFrag (htmlEscape (strippedOf raw))], ⟨false, false⟩)

/-- The rendering loop over all lines, followed by the final `close_lists()`. -/
def renderLines : List (List Char) → RState → List (List Char)
  | [], st => close_lists st
  | l :: ls, st => (processLine l st).1 ++ renderLines ls (processLine l st).2

/-- The body fragments emitted for a document: everything between `<body>`
and `</body>`. -/
def bodyFrags (md : List Char) : List (List Char) :=
  renderLines (splitlines md) ⟨false, false⟩

/-- The fixed document head emitted before any input line is processed. -/
def headerFrags : List (List Char) :=
  [ "<!DOCTYPE html>".toList,
    "<html>".toList,
    "<head>".toList,
    "<meta charset=\"utf-8\">".toList,
    "<style>".toList,
    ("body \x7b font-family: -apple-system, BlinkMacSystemFont, \x27Helvetica Neue\x27," ++
      " Helvetica, Arial, sans-serif; font-size: 12pt; margin: 48px 60px;" ++
      " line-height: 1.5; color: #131313; \x7d").toList,
    "h1, h2, h3 \x7b font-weight: 600; \x7d".toList,
    "p \x7b margin: 10px 0; \x7d".toList,
    "ul, ol \x7b margin: 8px 0 8px 24px; \x7d".toList,
    "li \x7b margin: 4px 0; \x7d".toList,
    "strong \x7b font-weight: 600; \x7d".toList,
    "</style>".toList,
    "</head>".toList,
    "<body>".toList ]

/-- The `"</body>"` fragment. -/
def bodyClose : List Char := "</body>".toList

/-- The `"</html>"` fragment. -/
def htmlClose : List Char := "</html>".toList

/-- `"\n".join(html_lines)`. -/
def joinNL (ls : List (List Char)) : List Char :=
  (List.intersperse ['\n'] ls).flatten

/-- `markdown_to_html`: the full renderer. -/
def markdown_to_html (md : List Char) : List Char :=
  joinNL (headerFrags ++ bodyFrags md ++ [bodyClose, htmlClose])

/-! ### A scanner for the list-tag balance invariant

`scanStep` consumes one emitted fragment: a list-open tag is legal only when
no list is open, a list-close tag only when exactly that list is open, and
every other fragment is neutral.  A fragment sequence scanned from the
closed state back to the closed state therefore has balanced list tags and
never has two list types open at once. -/

/-- One scanner step over a fragment. -/
def scanStep (st : RState) (f : List Char) : Option RState :=
  if f = ulOpen then (if st = ⟨false, false⟩ then some ⟨true, false⟩ else none)
  else if f = ulClose then (if st = ⟨true, false⟩ then some ⟨false, false⟩ else none)
  else if f = olOpen then (if st = ⟨false, false⟩ then some ⟨false, true⟩ else none)
  else if f = olClose then (if st = ⟨false, true⟩ then some ⟨false, false⟩ else none)
  else some st

/-- Scanning a fragment sequence. -/
def scanFrags : RState → List (List Char) → Option RState
  | st, [] => some st
  | st, f :: fs => (scanStep st f).bind (fun st2 => scanFrags st2 fs)

/-- The render states actually reachable: never both lists open. -/
def stOk (st : RState) : Prop :=
  st = ⟨false, false⟩ ∨ st = ⟨true, false⟩ ∨ st = ⟨false, true⟩

theorem scanFrags_append (fs gs : List (List Char)) (st : RState) :
    scanFrags st (fs ++ gs) = (scanFrags st fs).bind (fun st2 => scanFrags st2 gs) := by
  induction fs generalizing st with
  | nil => simp [scanFrags]
  | cons f fs ih =>
      simp only [List.cons_append, scanFrags]
      cases scanStep st f with
      | none => simp
      | some st2 => simp [ih]

/-- Fragments whose second character is `l`, `h` or `p` are not list tags,
so the scanner passes over them. -/
theorem scanStep_neutral (st : RState) (f : List Char)
    (h : f.get? 1 = some 'l' ∨ f.get? 1 = some 'h' ∨ f.get? 1 = some 'p') :
    scanStep st f = some st := by
  have hu : f ≠ ulOpen := by
    intro he; rw [he] at h; exact absurd h (by decide)
  have huc : f ≠ ulClose := by
    intro he; rw [he] at h; exact absurd h (by decide)
  have ho : f ≠ olOpen := by
    intro he; rw [he] at h; exact absurd h (by decide)
  have hoc : f ≠ olClose := by
    intro he; rw [he] at h; exact absurd h (by decide)
  simp [scanStep, hu, huc, ho, hoc]

theorem liFrag_get1 (e : List Char) : (liFrag e).get? 1 = some 'l' := rfl

theorem pFrag_get1 (e : List Char) : (pFrag e).get? 1 = some 'p' := rfl

theorem headingFrag_get1 (l : Nat) (e : List Char) :
    (headingFrag l e).get? 1 = some 'h' := rfl

theorem blankP_get1 : blankP.get? 1 = some 'p' := rfl

/-- Scanning the fragments emitted by `close_lists` from a reachable state
returns to the closed state. -/
theorem scan_close (st : RState) (h : stOk st) :
    scanFrags st (close_lists st) = some ⟨false, false⟩ := by
  rcases h with h | h | h <;> subst h <;> decide

theorem scanFrags_single_neutral (st : RState) (f : List Char)
    (h : f.get? 1 = some 'l' ∨ f.get? 1 = some 'h' ∨ f.get? 1 = some 'p') :
    scanFrags st [f] = some st := by
  simp [scanFrags, scanStep_neutral st f h]

/-- `close_lists` output followed by one neutral fragment scans to the closed
state. -/
theorem scan_close_neutral (st : RState) (h : stOk st) (f : List Char)
    (hf : f.get? 1 = some 'l' ∨ f.get? 1 = some 'h' ∨ f.get? 1 = some 'p') :
    scanFrags st (close_lists st ++ [f]) = some ⟨false, false⟩ := by
  rw [scanFrags_append, scan_close st h]
  exact scanFrags_single_neutral _ f hf

/-- `close_lists` output, then a list-open tag, then one neutral fragment,
scans to the state opened by the tag. -/
theorem scan_close_open_neutral (st : RState) (h : stOk st) (o : List Char)
    (st2 : RState) (ho : scanStep ⟨false, false⟩ o = some st2) (f : List Char)
    (hf : f.get? 1 = some 'l' ∨ f.get? 1 = some 'h' ∨ f.get? 1 = some 'p') :
    scanFrags st (close_lists st ++ [o, f]) = some st2 := by
  rw [scanFrags_append, scan_close st h]
  show scanFrags ⟨false, false⟩ [o, f] = some st2
  rw [scanFrags, ho]
  exact scanFrags_single_neutral st2 f hf

/-- Each loop iteration scans cleanly: from a reachable state, the fragments
it emits take the scanner exactly to the updated render state, which is again
reachable. -/
theorem processLine_scan (raw : List Char) (st : RState) (h : stOk st) :
    scanFrags st (processLine raw st).1 = some (processLine raw st).2 ∧
      stOk (processLine raw st).2 := by
  unfold processLine
  by_cases hb : (strippedOf raw).isEmpty
  · simp only [hb, if_true]
    exact ⟨scan_close_neutral st h _ (Or.inr (Or.inr blankP_get1)), Or.inl rfl⟩
  · by_cases hh : startsHash (strippedOf raw)
    · simp only [hb, hh, if_false, if_true, Bool.false_eq_true]
      exact ⟨scan_close_neutral st h _ (Or.inr (Or.inl (headingFrag_get1 _ _))),
        Or.inl rfl⟩
    · cases hnm : numberedMatch (strippedOf raw) with
      | some rest =>
          simp only [hb, hh, hnm, if_false, Bool.false_eq_true]
          by_cases hol : st.in_ol
          · simp only [hol, if_true]
            exact ⟨scanFrags_single_neutral _ _ (Or.inl (liFrag_get1 _)), h⟩
          · simp only [hol, if_false, Bool.false_eq_true]
            exact ⟨scan_close_open_neutral st h olOpen ⟨false, true⟩ (by decide) _
              (Or.inl (liFrag_get1 _)), Or.inr (Or.inr rfl)⟩
      | none =>
          simp only [hb, hh, hnm, if_false, Bool.false_eq_true]
          by_cases hd : (strippedOf raw).take 2 = ['-', ' ']
          · simp only [hd, if_true]
            by_cases hul : st.in_ul
            · simp only [hul, if_true]
              exact ⟨scanFrags_single_neutral _ _ (Or.inl (liFrag_get1 _)), h⟩
            · simp only [hul, if_false, Bool.false_eq_true]
              exact ⟨scan_close_open_neutral st h ulOpen ⟨true, false⟩ (by decide) _
                (Or.inl (liFrag_get1 _)), Or.inr (Or.inl rfl)⟩
          · simp only [hd, if_false]
            exact ⟨scan_close_neutral st h _ (Or.inr (Or.inr (pFrag_get1 _))),
              Or.inl rfl⟩

/-- The full rendering loop scans from any reachable state back to the closed
state: all list tags emitted are balanced and never overlap. -/
theorem renderLines_scan (ls : List (List Char)) :
    ∀ st : RState, stOk st → scanFrags st (renderLines ls st) = some ⟨false, false⟩ := by
  induction ls with
  | nil => intro st h; exact scan_close st h
  | cons l ls ih =>
      intro st h
      have hp := processLine_scan l st h
      rw [renderLines, scanFrags_append, hp.1]
      exact ih _ hp.2

/-- C1: for every Markdown input, the emitted body fragments scan from the
closed state back to the closed state — every `<ul>`/`<ol>` is later closed
by its matching tag (including after the last line), a list-open tag only
ever appears when no list is open (so the two list types are never open
simultaneously) — and on an unordered item immediately followed by an
ordered item, `</ul>` is emitted before `<ol>`. -/
theorem C1_list_tags_balanced (md : List Char) :
    scanFrags ⟨false, false⟩ (bodyFrags md) = some ⟨false, false⟩ ∧
      bodyFrags "- a\n1. b".toList =
        [ulOpen, liFrag "a".toList, ulClose, olOpen, liFrag "b".toList, olClose] :=
  ⟨renderLines_scan _ _ (Or.inl rfl), by decide⟩

/-! ### The escaping contract -/

/-- No raw `<`, `>`, `"` or `'` character at all. -/
def noBad (e : List Char) : Bool :=
  e.all (fun c => !(c == '<' || c == '>' || c == '"' || c == apos))

/-- Tail of the `&amp;` entity. -/
def entAmp : List Char := ['a', 'm', 'p', ';']

/-- Tail of the `&lt;` entity. -/
def entLt : List Char := ['l', 't', ';']

/-- Tail of the `&gt;` entity. -/
def entGt : List Char := ['g', 't', ';']

/-- Tail of the `&quot;` entity. -/
def entQuot : List Char := ['q', 'u', 'o', 't', ';']

/-- Tail of the `&#x27;` entity. -/
def entApos : List Char := ['#', 'x', '2', '7', ';']

/-- Does `r` start with the tail of one of the five escape entities? -/
def entHead (r : List Char) : Bool :=
  entAmp.isPrefixOf r || entLt.isPrefixOf r || entGt.isPrefixOf r ||
    entQuot.isPrefixOf r || entApos.isPrefixOf r

/-- Every `&` in the text begins one of the five escape entities. -/
def ampOk : List Char → Bool
  | [] => true
  | c :: r => (if c == '&' then entHead r else true) && ampOk r

theorem htmlEscape_cons (c : Char) (s : List Char) :
    htmlEscape (c :: s) = escChar c ++ htmlEscape s := by
  simp [htmlEscape]

theorem noBad_append (a b : List Char) :
    noBad (a ++ b) = (noBad a && noBad b) := by
  simp [noBad]

theorem ampOk_cons (c : Char) (r : List Char) :
    ampOk (c :: r) = ((if c == '&' then entHead r else true) && ampOk r) := rfl

theorem noBad_escChar (c : Char) : noBad (escChar c) = true := by
  by_cases h1 : c == '&'
  · simp [escChar, h1]; decide
  · by_cases h2 : c == '<'
    · simp [escChar, h1, h2]; decide
    · by_cases h3 : c == '>'
      · simp [escChar, h1, h2, h3]; decide
      · by_cases h4 : c == '"'
        · simp [escChar, h1, h2, h3, h4]; decide
        · by_cases h5 : c == apos
          · simp [escChar, h1, h2, h3, h4, h5]; decide
          · simp [escChar, h1, h2, h3, h4, h5, noBad]

theorem ampOk_escChar_append (c : Char) (r : List Char) (h : ampOk r = true) :
    ampOk (escChar c ++ r) = true := by
  by_cases h1 : c == '&'
  · simp only [escChar, h1, if_true]
    show ampOk ('&' :: 'a' :: 'm' :: 'p' :: ';' :: r) = true
    simp [ampOk_cons, entHead, entAmp, List.isPrefixOf, h]
  · by_cases h2 : c == '<'
    · simp only [escChar, h1, h2, if_true, Bool.false_eq_true, if_false]
      show ampOk ('&' :: 'l' :: 't' :: ';' :: r) = true
      simp [ampOk_cons, entHead, entAmp, entLt, List.isPrefixOf, h]
    · by_cases h3 : c == '>'
      · simp only [escChar, h1, h2, h3, if_true, Bool.false_eq_true, if_false]
        show ampOk ('&' :: 'g' :: 't' :: ';' :: r) = true
        simp [ampOk_cons, entHead, entAmp, entLt, entGt, List.isPrefixOf, h]
      · by_cases h4 : c == '"'
        · simp only [escChar, h1, h2, h3, h4, if_true, Bool.false_eq_true, if_false]
          show ampOk ('&' :: 'q' :: 'u' :: 'o' :: 't' :: ';' :: r) = true
          simp [ampOk_cons, entHead, entAmp, entLt, entGt, entQuot,
            List.isPrefixOf, h]
        · by_cases h5 : c == apos
          · simp only [escChar, h1, h2, h3, h4, h5, if_true, Bool.false_eq_true,
              if_false]
            show ampOk ('&' :: '#' :: 'x' :: '2' :: '7' :: ';' :: r) = true
            simp [ampOk_cons, entHead, entAmp, entLt, entGt, entQuot, entApos,
              List.isPrefixOf, h]
          · simp only [escChar, h1, h2, h3, h4, h5, Bool.false_eq_true, if_false]
            show ampOk (c :: r) = true
            simp [ampOk_cons, h1, h]

/-- The output of `html.escape` contains no raw `<`, `>`, `"` or `'`, and
every `&` in it begins one of the five escape entities. -/
theorem htmlEscape_escaped (s : List Char) :
    noBad (htmlEscape s) = true ∧ ampOk (htmlEscape s) = true := by
  induction s with
  | nil => decide
  | cons c s ih =>
      rw [htmlEscape_cons]
      constructor
      · rw [noBad_append, noBad_escChar, ih.1]; rfl
      · exact ampOk_escChar_append c _ ih.2

/-- The fixed fragments with no user-supplied content that the rendering
loop can emit. -/
def fixedFrags : List (List Char) := [ulOpen, ulClose, olOpen, olClose, blankP]

/-- The escaping contract for one emitted fragment: either fixed markup, or
a paragraph / list-item / heading wrapper around text with no raw special
characters. -/
def FragOk (f : List Char) : Prop :=
  f ∈ fixedFrags ∨
    ∃ e, (noBad e = true ∧ ampOk e = true) ∧
      (f = pFrag e ∨ f = liFrag e ∨ ∃ l, f = headingFrag l e)

theorem close_lists_fragOk (st : RState) (f : List Char)
    (h : f ∈ close_lists st) : FragOk f := by
  refine Or.inl ?_
  unfold close_lists at h
  rw [List.mem_append] at h
  rcases h with h | h
  · by_cases hu : st.in_ul
    · simp only [hu, if_true, List.mem_singleton] at h
      subst h; decide
    · simp [hu] at h
  · by_cases ho : st.in_ol
    · simp only [ho, if_true, List.mem_singleton] at h
      subst h; decide
    · simp [ho] at h

theorem escaped_fragOk_p (s : List Char) : FragOk (pFrag (htmlEscape s)) :=
  Or.inr ⟨htmlEscape s, htmlEscape_escaped s, Or.inl rfl⟩

theorem escaped_fragOk_li (s : List Char) : FragOk (liFrag (htmlEscape s)) :=
  Or.inr ⟨htmlEscape s, htmlEscape_escaped s, Or.inr (Or.inl rfl)⟩

theorem escaped_fragOk_h (l : Nat) (s : List Char) :
    FragOk (headingFrag l (htmlEscape s)) :=
  Or.inr ⟨htmlEscape s, htmlEscape_escaped s, Or.inr (Or.inr ⟨l, rfl⟩)⟩

theorem processLine_fragOk (raw : List Char) (st : RState) (f : List Char)
    (h : f ∈ (processLine raw st).1) : FragOk f := by
  unfold processLine at h
  by_cases hb : (strippedOf raw).isEmpty
  · simp only [hb, if_true, List.mem_append, List.mem_singleton] at h
    rcases h with h | h
    · exact close_lists_fragOk st f h
    · subst h; exact Or.inl (by decide)
  · by_cases hh : startsHash (strippedOf raw)
    · simp only [hb, hh, if_false, if_true, Bool.false_eq_true, List.mem_append,
        List.mem_singleton] at h
      rcases h with h | h
      · exact close_lists_fragOk st f h
      · subst h; exact escaped_fragOk_h _ _
    · cases hnm : numberedMatch (strippedOf raw) with
      | some rest =>
          simp only [hb, hh, hnm, if_false, Bool.false_eq_true] at h
          by_cases hol : st.in_ol
          · simp only [hol, if_true, List.mem_singleton] at h
            subst h; exact escaped_fragOk_li _
          · simp only [hol, if_false, Bool.false_eq_true, List.mem_append,
              List.mem_cons, List.mem_singleton] at h
            rcases h with h | h | h | h
            · exact close_lists_fragOk st f h
            · subst h; exact Or.inl (by decide)
            · subst h; exact escaped_fragOk_li _
            · simp at h
      | none =>
          simp only [hb, hh, hnm, if_false, Bool.false_eq_true] at h
          by_cases hd : (strippedOf raw).take 2 = ['-', ' ']
          · simp only [hd, if_true] at h
            by_cases hul : st.in_ul
            · simp only [hul, if_true, List.mem_singleton] at h
              subst h; exact escaped_fragOk_li _
            · simp only [hul, if_false, Bool.false_eq_true, List.mem_append,
                List.mem_cons, List.mem_singleton] at h
              rcases h with h | h | h | h
              · exact close_lists_fragOk st f h
              · subst h; exact Or.inl (by decide)
              · subst h; exact escaped_fragOk_li _
              · simp at h
          · simp only [hd, if_false, List.mem_append, List.mem_singleton] at h
            rcases h with h | h
            · exact close_lists_fragOk st f h
            · subst h; exact escaped_fragOk_p _

theorem renderLines_fragOk (ls : List (List Char)) :
    ∀ (st : RState) (f : List Char), f ∈ renderLines ls st → FragOk f := by
  induction ls with
  | nil => intro st f h; exact close_lists_fragOk st f h
  | cons l ls ih =>
      intro st f h
      rw [renderLines, List.mem_append] at h
      rcases h with h | h
      · exact processLine_fragOk l st f h
      · exact ih _ f h

/-- C4: every fragment emitted into the body is either fixed markup carrying
no user-supplied text, or a paragraph / list-item / heading wrapper whose
embedded text is HTML-escaped: it contains no raw `<`, `>`, `"` or `'`, and
every `&` in it begins an escape entity. -/
theorem C4_user_text_escaped (md : List Char) (f : List Char)
    (h : f ∈ bodyFrags md) : FragOk f :=
  renderLines_fragOk (splitlines md) ⟨false, false⟩ f h

/-- Witness for C4 at the input `a<b&c"d'e`, whose single emitted fragment
is a paragraph wrapping the escaped text. -/
theorem C4_user_text_escaped_witness :
    FragOk (pFrag (htmlEscape "a<b&c\"d\x27e".toList)) :=
  C4_user_text_escaped "a<b&c\"d\x27e".toList _ (by decide)

/-! ### Headings -/

theorem strippedOf_ne_nil_of_head (raw : List Char)
    (h : (strippedOf raw).headD ' ' = '#') :
    (strippedOf raw).isEmpty = false := by
  cases hs : strippedOf raw with
  | nil => rw [hs] at h; exact absurd h (by decide)
  | cons a t => rfl

theorem startsHash_of_head (s : List Char) (h : s.headD ' ' = '#') :
    startsHash s = true := by
  unfold startsHash; rw [h]; rfl

/-- On a heading line, the loop iteration closes open lists and emits one
heading fragment at the clamped level with the sliced, trimmed, escaped
text. -/
theorem processLine_heading (raw : List Char) (st : RState)
    (h : (strippedOf raw).headD ' ' = '#') :
    processLine raw st =
      (close_lists st ++
        [headingFrag (headingLevel (strippedOf raw))
          (htmlEscape (headingText (strippedOf raw)))], ⟨false, false⟩) := by
  have hb := strippedOf_ne_nil_of_head raw h
  simp [processLine, hb, startsHash_of_head _ h]

theorem hashRun_pos (s : List Char) (h : s.headD ' ' = '#') : 1 ≤ hashRun s := by
  cases s with
  | nil => exact absurd h (by decide)
  | cons a t =>
      have ha : a = '#' := h
      subst ha
      simp [hashRun, List.takeWhile_cons]

theorem headingLevel_eq_min (s : List Char) (h : s.headD ' ' = '#') :
    headingLevel s = min (hashRun s) 3 := by
  have h1 := hashRun_pos s h
  unfold headingLevel
  omega

/-- C3: on every heading line the emitted element's level is the leading-`#`
count clamped into [1,3]; four or more leading `#` render as level 3; a bare
`#` renders as a level-1 heading with empty text. -/
theorem C3_heading_level_clamped (raw : List Char) (st : RState)
    (h : (strippedOf raw).headD ' ' = '#') :
    processLine raw st =
      (close_lists st ++
        [headingFrag (headingLevel (strippedOf raw))
          (htmlEscape (headingText (strippedOf raw)))], ⟨false, false⟩) ∧
      headingLevel (strippedOf raw) = max 1 (min (hashRun (strippedOf raw)) 3) ∧
      1 ≤ headingLevel (strippedOf raw) ∧ headingLevel (strippedOf raw) ≤ 3 ∧
      (4 ≤ hashRun (strippedOf raw) → headingLevel (strippedOf raw) = 3) ∧
      bodyFrags "#".toList = [headingFrag 1 []] := by
  have h1 := hashRun_pos (strippedOf raw) h
  refine ⟨processLine_heading raw st h, rfl, ?_, ?_, ?_, by decide⟩ <;>
    unfold headingLevel <;> omega

/-- Witness for C3 at the line `#### x` (run of 4, clamped to level 3). -/
theorem C3_heading_level_clamped_witness :
    processLine "#### x".toList ⟨false, false⟩ =
      (close_lists ⟨false, false⟩ ++
        [headingFrag (headingLevel (strippedOf "#### x".toList))
          (htmlEscape (headingText (strippedOf "#### x".toList)))],
        ⟨false, false⟩) ∧
      headingLevel (strippedOf "#### x".toList) =
        max 1 (min (hashRun (strippedOf "#### x".toList)) 3) ∧
      1 ≤ headingLevel (strippedOf "#### x".toList) ∧
      headingLevel (strippedOf "#### x".toList) ≤ 3 ∧
      (4 ≤ hashRun (strippedOf "#### x".toList) →
        headingLevel (strippedOf "#### x".toList) = 3) ∧
      bodyFrags "#".toList = [headingFrag 1 []] :=
  C3_heading_level_clamped "#### x".toList ⟨false, false⟩ (by decide)

/-- Refutation of C2 as stated: for `#### Title` the emitted heading text is
`# Title` — the slice starts after the clamped level, not after the full `#`
run — and a line of four `#` characters has text `#`, not empty text. -/
theorem C2_heading_text_counterexample :
    bodyFrags "#### Title".toList = [headingFrag 3 "# Title".toList] ∧
      bodyFrags "#### Title".toList ≠ [headingFrag 3 "Title".toList] ∧
      bodyFrags "####".toList = [headingFrag 3 ['#']] ∧
      bodyFrags "####".toList ≠ [headingFrag 3 []] := by decide

/-- C2 (amended): the heading text is everything after the first
min(run, 3) leading `#` characters, trimmed and escaped.  `# Title` keeps
`Title`; `#### Title` and `###### Title` keep `# Title` and `### Title`; a
line of only `#` characters has empty text when the run is at most 3, and
text of run−3 `#` characters otherwise. -/
theorem C2_heading_text_after_clamped_run (raw : List Char) (st : RState)
    (h : (strippedOf raw).headD ' ' = '#') :
    processLine raw st =
      (close_lists st ++
        [headingFrag (headingLevel (strippedOf raw))
          (htmlEscape (headingText (strippedOf raw)))], ⟨false, false⟩) ∧
      headingText (strippedOf raw) =
        pyStrip ((strippedOf raw).drop (min (hashRun (strippedOf raw)) 3)) ∧
      headingText "# Title".toList = "Title".toList ∧
      headingText "#### Title".toList = "# Title".toList ∧
      headingText "###### Title".toList = "### Title".toList ∧
      headingText "##".toList = [] ∧
      headingText "#####".toList = ['#', '#'] :=
  ⟨processLine_heading raw st h,
    by rw [headingText, headingLevel_eq_min _ h],
    by decide, by decide, by decide, by decide, by decide⟩

/-- Witness for the amended C2 at the line `#### Title`. -/
theorem C2_heading_text_after_clamped_run_witness :
    processLine "#### Title".toList ⟨false, false⟩ =
      (close_lists ⟨false, false⟩ ++
        [headingFrag (headingLevel (strippedOf "#### Title".toList))
          (htmlEscape (headingText (strippedOf "#### Title".toList)))],
        ⟨false, false⟩) ∧
      headingText (strippedOf "#### Title".toList) =
        pyStrip ((strippedOf "#### Title".toList).drop
          (min (hashRun (strippedOf "#### Title".toList)) 3)) ∧
      headingText "# Title".toList = "Title".toList ∧
      headingText "#### Title".toList = "# Title".toList ∧
      headingText "###### Title".toList = "### Title".toList ∧
      headingText "##".toList = [] ∧
      headingText "#####".toList = ['#', '#'] :=
  C2_heading_text_after_clamped_run "#### Title".toList ⟨false, false⟩ (by decide)

/-! ### Blank lines -/

/-- C6: a blank line closes any open list and emits exactly one
empty-paragraph placeholder, and two consecutive blank lines produce two
distinct placeholders. -/
theorem C6_blank_line (raw : List Char) (st : RState)
    (h : strippedOf raw = []) :
    processLine raw st = (close_lists st ++ [blankP], ⟨false, false⟩) ∧
      bodyFrags "\n\n".toList = [blankP, blankP] := by
  refine ⟨?_, by decide⟩
  simp [processLine, h]

/-- Witness for C6 at a whitespace-only line with an unordered list open. -/
theorem C6_blank_line_witness :
    processLine "  ".toList ⟨true, false⟩ =
      (close_lists ⟨true, false⟩ ++ [blankP], ⟨false, false⟩) ∧
      bodyFrags "\n\n".toList = [blankP, blankP] :=
  C6_blank_line "  ".toList ⟨true, false⟩ (by decide)

/-! ### Totality and the document shell -/

set_option maxRecDepth 8192 in
/-- C7: `markdown_to_html` is a total function (a Lean function by
construction); for every input the output is the fixed document shell
wrapping the body fragments, and the empty input — which has zero lines —
produces the shell with an empty body. -/
theorem C7_total_shell (md : List Char) :
    (∃ body, markdown_to_html md =
        joinNL (headerFrags ++ body ++ [bodyClose, htmlClose]) ∧
        body = bodyFrags md) ∧
      markdown_to_html [] = joinNL (headerFrags ++ [bodyClose, htmlClose]) ∧
      splitlines [] = [] :=
  ⟨⟨bodyFrags md, rfl, rfl⟩, by decide, rfl⟩

/-! ### Ordered-list classification -/

theorem all_takeWhile (p : Char → Bool) (l : List Char) :
    (l.takeWhile p).all p = true := by
  induction l with
  | nil => rfl
  | cons a t ih =>
      rw [List.takeWhile_cons]
      by_cases h : p a
      · rw [if_pos h]; simp [List.all_cons, h, ih]
      · rw [if_neg h]; rfl

theorem takeWhile_append_all (p : Char → Bool) (ds t : List Char)
    (h : ds.all p = true) : (ds ++ t).takeWhile p = ds ++ t.takeWhile p := by
  induction ds with
  | nil => simp
  | cons a l ih =>
      rw [List.all_cons, Bool.and_eq_true] at h
      simp only [List.cons_append, List.takeWhile_cons, h.1, if_true, ih h.2]

theorem dropWhile_append_all (p : Char → Bool) (ds t : List Char)
    (h : ds.all p = true) : (ds ++ t).dropWhile p = t.dropWhile p := by
  induction ds with
  | nil => simp
  | cons a l ih =>
      rw [List.all_cons, Bool.and_eq_true] at h
      simp only [List.cons_append, List.dropWhile_cons, h.1, if_true, ih h.2]

theorem dropWhile_head_not (p : Char → Bool) (l : List Char) (c : Char)
    (r : List Char) (h : l.dropWhile p = c :: r) : p c = false := by
  induction l with
  | nil => simp [List.dropWhile] at h
  | cons a t ih =>
      rw [List.dropWhile_cons] at h
      by_cases hp : p a
      · rw [if_pos hp] at h; exact ih h
      · rw [if_neg hp] at h
        injection h with h1 h2
        subst h1
        simpa using hp

/-- The rest of a matched numbered line does not begin with whitespace
(the regex `\s+` run is maximal). -/
def noLeadWs : List Char → Bool
  | [] => true
  | c :: _ => !(isPyWs c)

theorem takeWhile_ws_nil_of_noLeadWs (r : List Char) (h : noLeadWs r = true) :
    r.takeWhile isPyWs = [] := by
  cases r with
  | nil => rfl
  | cons c t =>
      have hc : isPyWs c = false := by simpa [noLeadWs] using h
      rw [List.takeWhile_cons, hc]; rfl

theorem dropWhile_ws_self_of_noLeadWs (r : List Char) (h : noLeadWs r = true) :
    r.dropWhile isPyWs = r := by
  cases r with
  | nil => rfl
  | cons c t =>
      have hc : isPyWs c = false := by simpa [noLeadWs] using h
      rw [List.dropWhile_cons, hc]; rfl

/-- The shape the regex `^(\d+)\.\s+(.*)` describes: a nonempty digit run,
a literal period, a nonempty maximal whitespace run, then the captured rest
(group 2). -/
def numberedShape (s r : List Char) : Prop :=
  ∃ ds ws, s = ds ++ '.' :: (ws ++ r) ∧ ds ≠ [] ∧ ds.all Char.isDigit = true ∧
    ws ≠ [] ∧ ws.all isPyWs = true ∧ noLeadWs r = true

/-- `numbered_pattern.match(stripped)` succeeds with group 2 equal to `r`
exactly when the line has the digits-period-whitespace-rest shape. -/
theorem numberedMatch_spec (s r : List Char) :
    numberedMatch s = some r ↔ numberedShape s r := by
  constructor
  · intro h
    unfold numberedMatch at h
    by_cases h1 : (s.takeWhile Char.isDigit).isEmpty
    · rw [if_pos h1] at h; exact absurd h (by simp)
    · rw [if_neg h1] at h
      cases hd : s.dropWhile Char.isDigit with
      | nil => rw [hd] at h; exact absurd h (by simp)
      | cons c r2 =>
          rw [hd] at h
          simp only [List.headD_cons, List.tail_cons] at h
          by_cases hc : c = '.'
          · rw [if_pos hc] at h
            subst hc
            by_cases h2 : (r2.takeWhile isPyWs).isEmpty
            · rw [if_pos h2] at h; exact absurd h (by simp)
            · rw [if_neg h2] at h
              injection h with hr
              refine ⟨s.takeWhile Char.isDigit, r2.takeWhile isPyWs, ?_, ?_,
                all_takeWhile _ _, ?_, all_takeWhile _ _, ?_⟩
              · conv_lhs => rw [← List.takeWhile_append_dropWhile Char.isDigit s]
                rw [hd, ← hr, List.takeWhile_append_dropWhile]
              · intro hnil; rw [hnil] at h1; exact h1 rfl
              · intro hnil; rw [hnil] at h2; exact h2 rfl
              · rw [← hr]
                cases hr2 : r2.dropWhile isPyWs with
                | nil => rfl
                | cons c' t' =>
                    have := dropWhile_head_not isPyWs r2 c' t' hr2
                    simp [noLeadWs, this]
          · rw [if_neg hc] at h; exact absurd h (by simp)
  · rintro ⟨ds, ws, hs, hds, hdsall, hws, hwsall, hr⟩
    subst hs
    have hdot : Char.isDigit '.' = false := by decide
    have htk : ((ds ++ '.' :: (ws ++ r)).takeWhile Char.isDigit) = ds := by
      rw [takeWhile_append_all Char.isDigit ds _ hdsall, List.takeWhile_cons, hdot]
      simp
    have hdr : ((ds ++ '.' :: (ws ++ r)).dropWhile Char.isDigit) =
        '.' :: (ws ++ r) := by
      rw [dropWhile_append_all Char.isDigit ds _ hdsall, List.dropWhile_cons, hdot]
      simp
    have hne : ds.isEmpty = false := by
      cases ds with
      | nil => exact absurd rfl hds
      | cons a t => rfl
    have htk2 : ((ws ++ r).takeWhile isPyWs) = ws := by
      rw [takeWhile_append_all isPyWs ws r hwsall,
        takeWhile_ws_nil_of_noLeadWs r hr, List.append_nil]
    have hne2 : ws.isEmpty = false := by
      cases ws with
      | nil => exact absurd rfl hws
      | cons a t => rfl
    have hdr2 : ((ws ++ r).dropWhile isPyWs) = r := by
      rw [dropWhile_append_all isPyWs ws r hwsall,
        dropWhile_ws_self_of_noLeadWs r hr]
    unfold numberedMatch
    rw [htk, hne, hdr]
    simp [htk2, hne2, hdr2]

/-- On a line matched by the numbered pattern, the loop emits an ordered
list item containing exactly the escaped group-2 capture, opening the
ordered container (after closing any unordered one) only if not already
inside an ordered list. -/
theorem processLine_numbered (raw : List Char) (st : RState) (r : List Char)
    (h : numberedMatch (strippedOf raw) = some r) :
    processLine raw st =
      (if st.in_ol then ([liFrag (htmlEscape r)], st)
       else (close_lists st ++ [olOpen, liFrag (htmlEscape r)], ⟨false, true⟩)) := by
  obtain ⟨ds, ws, hs, hds, hall, -, -, -⟩ := (numberedMatch_spec _ _).mp h
  cases ds with
  | nil => exact absurd rfl hds
  | cons d ds2 =>
      rw [List.all_cons, Bool.and_eq_true] at hall
      have hd : d.isDigit = true := hall.1
      have hb : (strippedOf raw).isEmpty = false := by rw [hs]; rfl
      have hne : d ≠ '#' := by
        intro he; rw [he] at hd; exact absurd hd (by decide)
      have hh : startsHash (strippedOf raw) = false := by
        rw [hs]; simp [startsHash, hne]
      simp [processLine, hb, hh, h]

/-- C5: a line is classified as an ordered list item exactly when its
stripped form is a nonempty digit run, a period, a nonempty whitespace run,
then the captured rest; the emitted `<li>` contains only the escaped
captured rest, the digit prefix being discarded. -/
theorem C5_ordered_item_rule (raw : List Char) (st : RState) (r : List Char)
    (h : numberedMatch (strippedOf raw) = some r) :
    numberedShape (strippedOf raw) r ∧
      processLine raw st =
        (if st.in_ol then ([liFrag (htmlEscape r)], st)
         else (close_lists st ++ [olOpen, liFrag (htmlEscape r)], ⟨false, true⟩)) ∧
      (∀ s2 r2, numberedMatch s2 = some r2 ↔ numberedShape s2 r2) :=
  ⟨(numberedMatch_spec _ _).mp h, processLine_numbered raw st r h,
    fun s2 r2 => numberedMatch_spec s2 r2⟩

/-- Witness for C5 at the line `12. abc`: the digits `12` are discarded and
the item text is `abc`. -/
theorem C5_ordered_item_rule_witness :
    numberedShape (strippedOf "12. abc".toList) "abc".toList ∧
      processLine "12. abc".toList ⟨false, false⟩ =
        (if (RState.mk false false).in_ol then
          ([liFrag (htmlEscape "abc".toList)], ⟨false, false⟩)
         else (close_lists ⟨false, false⟩ ++
            [olOpen, liFrag (htmlEscape "abc".toList)], ⟨false, true⟩)) ∧
      (∀ s2 r2, numberedMatch s2 = some r2 ↔ numberedShape s2 r2) :=
  C5_ordered_item_rule "12. abc".toList ⟨false, false⟩ "abc".toList (by decide)

/-- C10: a list marker missing its required separator or content — a
stripped line that is exactly `-`, or starts with `-` not followed by a
space, or is a digit run followed by a period with no whitespace after it —
falls through to the paragraph rule: one paragraph fragment, no list item,
no list container. -/
theorem C10_marker_fallthrough (raw : List Char) (st : RState)
    (h : (∃ t, strippedOf raw = '-' :: t ∧
            (t = [] ∨ ∃ c t2, t = c :: t2 ∧ c ≠ ' ')) ∨
         (∃ ds r2, strippedOf raw = ds ++ '.' :: r2 ∧ ds ≠ [] ∧
            ds.all Char.isDigit = true ∧ noLeadWs r2 = true)) :
    processLine raw st =
      (close_lists st ++ [pFrag (htmlEscape (strippedOf raw))], ⟨false, false⟩) := by
  rcases h with ⟨t, hs, ht⟩ | ⟨ds, r2, hs, hds, hall, hr⟩
  · have hb : (strippedOf raw).isEmpty = false := by rw [hs]; rfl
    have hh : startsHash (strippedOf raw) = false := by rw [hs]; rfl
    have hnm : numberedMatch (strippedOf raw) = none := by
      rw [hs]
      unfold numberedMatch
      rw [List.takeWhile_cons, if_neg (by decide : ¬Char.isDigit '-' = true)]
      rfl
    have htk : (strippedOf raw).take 2 ≠ ['-', ' '] := by
      rw [hs]
      rcases ht with rfl | ⟨c, t2, rfl, hc⟩
      · decide
      · intro he
        simp only [List.take_succ_cons, List.take_zero] at he
        injection he with he1 he2
        injection he2 with he3 he4
        exact hc he3
    simp [processLine, hb, hh, hnm, htk]
  · cases ds with
    | nil => exact absurd rfl hds
    | cons d ds2 =>
        have hd : d.isDigit = true := by
          have h2 := hall
          rw [List.all_cons, Bool.and_eq_true] at h2
          exact h2.1
        have hdne : d ≠ '#' := by
          intro he; rw [he] at hd; exact absurd hd (by decide)
        have hdne2 : d ≠ '-' := by
          intro he; rw [he] at hd; exact absurd hd (by decide)
        have hb : (strippedOf raw).isEmpty = false := by rw [hs]; rfl
        have hh : startsHash (strippedOf raw) = false := by
          rw [hs]; simp [startsHash, hdne]
        have hnm : numberedMatch (strippedOf raw) = none := by
          rw [hs]
          have hdot : Char.isDigit '.' = false := by decide
          have htk3 : (((d :: ds2) ++ '.' :: r2).takeWhile Char.isDigit) =
              d :: ds2 := by
            rw [takeWhile_append_all Char.isDigit _ _ hall, List.takeWhile_cons,
              hdot]
            simp
          have hdr3 : (((d :: ds2) ++ '.' :: r2).dropWhile Char.isDigit) =
              '.' :: r2 := by
            rw [dropWhile_append_all Char.isDigit _ _ hall, List.dropWhile_cons,
              hdot]
            simp
          unfold numberedMatch
          rw [htk3, hdr3]
          simp [takeWhile_ws_nil_of_noLeadWs r2 hr]
        have htk : (strippedOf raw).take 2 ≠ ['-', ' '] := by
          rw [hs]
          intro he
          rw [List.cons_append, List.take_succ_cons] at he
          injection he with he1 he2
          exact hdne2 he1
        simp [processLine, hb, hh, hnm, htk]

/-- Witness for C10 at the line `1.` (number and period, no separator). -/
theorem C10_marker_fallthrough_witness :
    processLine "1.".toList ⟨false, false⟩ =
      (close_lists ⟨false, false⟩ ++
        [pFrag (htmlEscape (strippedOf "1.".toList))], ⟨false, false⟩) :=
  C10_marker_fallthrough "1.".toList ⟨false, false⟩
    (Or.inr ⟨['1'], [], by decide, by decide, by decide, by decide⟩)

/-! ### The conversion orchestrator and command-line entry point

`convert_to_pdf` and `main` perform I/O, so they are embedded over an
abstract system oracle `Sys` (does the source exist, its contents, the
external converter's outcome, whether the temp-file removal succeeds); the
observable effects are recorded as an event trace. -/

/-- One observable effect of the orchestrator or entry point. -/
inductive Event
  | readSource
  | createTemp
  | writeTemp (content : List Char)
  | runConverter
  | removeTemp
  | printUsage
  | printMissing
  | printWrote
deriving DecidableEq, Repr

/-- Outcome of the external `textutil` invocation: exit status 0, a nonzero
exit status, or an exception-like failure (e.g. the binary is missing). -/
inductive ExtStatus
  | success
  | failure
  | crash
deriving DecidableEq, Repr

/-- Primary result of `convert_to_pdf`: normal return, a
`CalledProcessError` propagated because `check=True` saw a failure status,
or some other propagated exception. -/
inductive CResult
  | ok
  | conversionFailed
  | crashed
deriving DecidableEq, Repr

/-- The abstract system oracle a run interacts with. -/
structure Sys where
  srcExists : Bool
  srcText : List Char
  converter : ExtStatus
  removeOk : Bool

/-- `sys` with the removal outcome replaced. -/
def setRemoveOk (s : Sys) (b : Bool) : Sys :=
  ⟨s.srcExists, s.srcText, s.converter, b⟩

/-- `sys` with the converter outcome replaced. -/
def setConverter (s : Sys) (e : ExtStatus) : Sys :=
  ⟨s.srcExists, s.srcText, e, s.removeOk⟩

/-- `sys` with the source-existence flag replaced. -/
def setSrcExists (s : Sys) (b : Bool) : Sys :=
  ⟨b, s.srcText, s.converter, s.removeOk⟩

/-- `convert_to_pdf(markdown_path, output_path)`: reads the source, renders
it, writes the HTML to a fresh temp file, runs `textutil` with `check=True`,
and in a `finally` block attempts `os.remove` on the temp file, swallowing
`OSError`.  Returns the primary result, the event trace, and whether the
transient file still exists afterwards.  The remove attempt appears in the
trace on every converter outcome (the `finally` clause), and its own
success (`removeOk`) influences only whether the file remains — never the
primary result. -/
def convert_to_pdf (sys : Sys) : CResult × List Event × Bool :=
  (match sys.converter with
    | ExtStatus.success => CResult.ok
    | ExtStatus.failure => CResult.conversionFailed
    | ExtStatus.crash => CResult.crashed,
   [Event.readSource, Event.createTemp,
    Event.writeTemp (markdown_to_html sys.srcText), Event.runConverter,
    Event.removeTemp],
   !sys.removeOk)

/-- `main()`: usage check on the argument count, then the eager
`src.exists()` check (an error message on the error stream and exit code 1
when it fails, before any read), then the conversion; an exception
propagating out of `convert_to_pdf` terminates the interpreter with a
nonzero status. -/
def mainModel (sys : Sys) (argc : Nat) : Nat × List Event :=
  if argc ≠ 3 then (1, [Event.printUsage])
  else if !sys.srcExists then (1, [Event.printMissing])
  else
    match convert_to_pdf sys with
    | (CResult.ok, evs, _) => (0, evs ++ [Event.printWrote])
    | (CResult.conversionFailed, evs, _) => (1, evs)
    | (CResult.crashed, evs, _) => (1, evs)

/-- C8: when the source path does not exist, the run reports the missing
input on the error stream and exits nonzero, with no read attempt, no
transient file created, and no converter invocation. -/
theorem C8_missing_input (sys : Sys) :
    mainModel (setSrcExists sys false) 3 = (1, [Event.printMissing]) ∧
      (mainModel (setSrcExists sys false) 3).1 ≠ 0 ∧
      Event.readSource ∉ (mainModel (setSrcExists sys false) 3).2 ∧
      Event.createTemp ∉ (mainModel (setSrcExists sys false) 3).2 ∧
      Event.runConverter ∉ (mainModel (setSrcExists sys false) 3).2 := by
  have h1 : mainModel (setSrcExists sys false) 3 = (1, [Event.printMissing]) := by
    simp [mainModel, setSrcExists]
  refine ⟨h1, ?_, ?_, ?_, ?_⟩ <;> rw [h1] <;> decide

/-- C9: a failure status from the external converter makes the conversion
fail with the `conversionFailed` kind and the process exit nonzero; the
temp-file removal attempt is in the trace on every outcome; the transient
file remains only when removal itself failed; and the removal outcome never
changes the primary result or the trace. -/
theorem C9_conversion_failed_cleanup (sys : Sys) (b : Bool) :
    (convert_to_pdf (setConverter sys ExtStatus.failure)).1 =
        CResult.conversionFailed ∧
      (mainModel (setSrcExists (setConverter sys ExtStatus.failure) true) 3).1 = 1 ∧
      Event.removeTemp ∈ (convert_to_pdf sys).2.1 ∧
      (convert_to_pdf sys).2.2 = !sys.removeOk ∧
      (convert_to_pdf (setRemoveOk sys b)).1 = (convert_to_pdf sys).1 ∧
      (convert_to_pdf (setRemoveOk sys b)).2.1 = (convert_to_pdf sys).2.1 := by
  refine ⟨?_, ?_, ?_, ?_, ?_, ?_⟩
  · simp [convert_to_pdf, setConverter]
  · simp [mainModel, setSrcExists, setConverter, convert_to_pdf]
  · simp [convert_to_pdf]
  · simp [convert_to_pdf]
  · cases hc : sys.converter <;>
      simp [convert_to_pdf, setRemoveOk, hc]
  · simp [convert_to_pdf, setRemoveOk]

end MakePdf
